import Mathlib

/-!
# Verification of the OLX listing scraper (`olx_parser.py`)

A shallow embedding of the extraction-and-collection core of `OlxParser`:
the URL builder `get_url` (built on the `furl` library), the link
classifier `is_url`, the card extractor `prepare_card_data`, the
completeness checker `check_data`, the pagination loop `get_cards` and the
sink `write_results`.

Modelling conventions:
* HTML nodes reached through BeautifulSoup queries are represented by the
  data the program actually reads from them (attribute values, text),
  each `Option`-wrapped where the query can fail.  A bs4 `Tag` is always
  truthy (`Tag.__bool__` returns `True`), so `if tag:` tests presence.
* Python `float` values produced by price parsing are modelled as `ℚ`
  (every price literal in scope is a short decimal, exactly representable
  both as a binary double and as a rational).
* Fallible Python code is modelled with `Except PyError`: an uncaught
  `ValueError` from `float(...)` and an uncaught `IndexError` from
  indexing an empty list.
* String manipulation from the source (`str.replace` with one-character
  patterns, `str.split("zł")`, `str(int)`) and the `furl`/`urllib` URL
  splitting are implemented over `List Char` by structural recursion so
  that every theorem can be evaluated on concrete inputs.
-/

namespace Olx

/-! ## List-of-characters utilities -/

/-- Split a character list at the first character satisfying `p`:
`some (before, after)` with the splitting character dropped, or `none`
when no character satisfies `p`. -/
def splitAtFirst (p : Char → Bool) : List Char → Option (List Char × List Char)
  | [] => none
  | c :: cs =>
    if p c then some ([], cs)
    else
      match splitAtFirst p cs with
      | some (a, b) => some (c :: a, b)
      | none => none

/-- Take characters until the first one satisfying `p`; returns
`(prefix, rest-including-stop-char)`. -/
def takeUntil (p : Char → Bool) : List Char → List Char × List Char
  | [] => ([], [])
  | c :: cs =>
    if p c then ([], c :: cs)
    else
      let r := takeUntil p cs
      (c :: r.1, r.2)

/-- Split on every occurrence of `sep` (like Python `str.split(sep)` for a
one-character separator): always returns at least one piece. -/
def splitOnCharL (sep : Char) : List Char → List (List Char)
  | [] => [[]]
  | c :: cs =>
    match splitOnCharL sep cs with
    | [] => [[]]
    | a :: t => if c = sep then [] :: a :: t else (c :: a) :: t

/-- Python `s.replace(c, "")` for a one-character pattern `c`. -/
def removeAll (c : Char) (l : List Char) : List Char :=
  l.filter (fun d => d ≠ c)

/-- Python `s.replace(a, b)` for one-character pattern and replacement. -/
def replaceAllChar (a b : Char) (l : List Char) : List Char :=
  l.map (fun c => if c = a then b else c)

/-- The prefix of `l` before the first occurrence of the two-character
sequence `a b`; the whole list when the sequence does not occur.  This is
Python `s.split(ab)[0]` for a two-character separator `ab`. -/
def takeBefore2 (a b : Char) : List Char → List Char
  | [] => []
  | [c] => [c]
  | c :: d :: rest =>
    if c = a ∧ d = b then []
    else c :: takeBefore2 a b (d :: rest)

/-- Numeric value of a list of decimal digit characters (most significant
first), as produced by Python `int`-style accumulation. -/
def digitsVal (l : List Char) : Nat :=
  l.foldl (fun a c => a * 10 + (c.toNat - 48)) 0

/-- Helper for `natStr`; the fuel (any bound above the digit count)
only makes the recursion structural. -/
def natStrAux : Nat → Nat → List Char
  | 0, _ => []
  | fuel + 1, n =>
    if n < 10 then [Nat.digitChar n]
    else natStrAux fuel (n / 10) ++ [Nat.digitChar (n % 10)]

/-- Python `str(n)` for a non-negative integer `n`: its decimal digits. -/
def natStr (n : Nat) : List Char := natStrAux (n + 1) n

/-! ## URL model (`furl` as exercised by this program)

`furl(url)` splits a URL string the way `urllib.parse.urlsplit` does:
an optional scheme (the part before the first `:`, accepted only when it
is a non-empty alphanumeric/`+`/`-`/`.` word starting with a letter), an
authority when the remainder starts with `//` (up to the next `/`, `?` or
`#`), then the path up to `?`, then the query string split on `&` with
each token split at its first `=`.  `furl.host` is the authority's host;
it is `None` exactly when there is no (or an empty) authority.

The model keeps query keys and values as raw tokens (no percent-decoding:
every string this program feeds through `furl` round-trips its
percent-escapes unchanged) and does not model fragments, user-info or
ports — no URL handled by the program carries one. -/

/-- A parsed URL, after `furl`. -/
structure Furl where
  scheme : Option String
  host : Option String
  path : String
  query : List (String × String)
deriving DecidableEq, Repr

/-- Characters allowed in a URL scheme after the leading letter. -/
def schemeChar (c : Char) : Bool :=
  c.isAlphanum || c = '+' || c = '-' || c = '.'

/-- A valid scheme word: non-empty, starts with a letter, scheme chars. -/
def validScheme (l : List Char) : Bool :=
  match l with
  | [] => false
  | c :: cs => c.isAlpha && cs.all schemeChar

/-- Stop characters ending the authority component. -/
def authStop (c : Char) : Bool :=
  c = '/' || c = '?' || c = '#'

/-- The host as `furl` reports it: `None` for an empty authority. -/
def mkHost (l : List Char) : Option String :=
  if l = [] then none else some (String.mk l)

/-- Split one `k=v` query token at its first `=`. -/
def parseQueryTok (tok : List Char) : String × String :=
  match splitAtFirst (fun c => c = '=') tok with
  | some (k, v) => (String.mk k, String.mk v)
  | none => (String.mk tok, "")

/-- Parse a raw query string into key/value pairs. -/
def parseQueryL (q : List Char) : List (String × String) :=
  (splitOnCharL '&' q).map parseQueryTok

/-- Parse the part of a URL that follows the scheme. -/
def parseAfterScheme (sch : Option String) (rest : List Char) : Furl :=
  match rest with
  | '/' :: '/' :: r =>
    let auth := (takeUntil authStop r).1
    let r' := (takeUntil authStop r).2
    match splitAtFirst (fun c => c = '?') r' with
    | some (p, q) => ⟨sch, mkHost auth, String.mk p, parseQueryL q⟩
    | none => ⟨sch, mkHost auth, String.mk r', []⟩
  | _ =>
    match splitAtFirst (fun c => c = '?') rest with
    | some (p, q) => ⟨sch, none, String.mk p, parseQueryL q⟩
    | none => ⟨sch, none, String.mk rest, []⟩

/-- Parse a URL string (`furl(url)` / `urllib.parse.urlsplit`). -/
def parseUrlL (l : List Char) : Furl :=
  match splitAtFirst (fun c => c = ':') l with
  | some (pre, post) =>
    if validScheme pre then parseAfterScheme (some (String.mk pre)) post
    else parseAfterScheme none l
  | none => parseAfterScheme none l

/-- `furl(url)` on a Lean `String`. -/
def parseUrl (s : String) : Furl := parseUrlL s.data

/-- Serialize a query pair list back to a raw query string. -/
def serializeQueryL (q : List (String × String)) : List Char :=
  match q with
  | [] => []
  | [kv] => kv.1.data ++ '=' :: kv.2.data
  | kv :: rest => kv.1.data ++ '=' :: kv.2.data ++ '&' :: serializeQueryL rest

/-- The path as serialized when an authority is present: `furl` keeps a
non-empty path absolute (leading `/`). -/
def normSlash (p : List Char) : List Char :=
  match p with
  | [] => []
  | c :: cs => if c = '/' then c :: cs else '/' :: c :: cs

/-- The serialized query tail: empty for no parameters, otherwise `?`
followed by the joined pairs. -/
def serializeQsTail (q : List (String × String)) : List Char :=
  match q with
  | [] => []
  | _ => '?' :: serializeQueryL q

/-- `furl(...).url`: reassemble the URL string. -/
def serializeUrlL (u : Furl) : List Char :=
  (match u.scheme, u.host with
   | some sc, some h => sc.data ++ ':' :: '/' :: '/' :: h.data ++ normSlash u.path.data
   | some sc, none => sc.data ++ ':' :: u.path.data
   | none, some h => '/' :: '/' :: h.data ++ normSlash u.path.data
   | none, none => u.path.data) ++ serializeQsTail u.query

/-- `furl(...).url` as a Lean `String`. -/
def serializeUrl (u : Furl) : String := String.mk (serializeUrlL u)

/-- `f_url.set(path=path)`: replace the path component. -/
def furlSetPath (u : Furl) (p : String) : Furl := { u with path := p }

/-- `f_url.add(args=params)`: append query parameters, keeping the
existing query (additive). -/
def furlAdd (u : Furl) (args : List (String × String)) : Furl :=
  { u with query := u.query ++ args }

/-- `OlxParser.BASE_URL`. -/
def BASE_URL : String := "https://www.olx.pl"

/-- `OlxParser.OFERTY_URL`. -/
def OFERTY_URL : String := "https://www.olx.pl/oferty/?search%5Border%5D=created_at:desc"

/--
`OlxParser.get_url(base_url, path=None, params=None)`:

```python
f_url = furl(url=base_url)
if path:
    f_url.set(path=path)
if params:
    f_url.add(args=params)
return f_url.url
```

`path=None` and `path=""` are both falsy, likewise an absent or empty
`params` dict, so those steps are skipped for them.  A `params` dict is
modelled as an association list in insertion order. -/
def get_url (base_url : String) (path : Option String := none)
    (params : Option (List (String × String)) := none) : String :=
  let f := parseUrl base_url
  let f := match path with
    | some p => if p ≠ "" then furlSetPath f p else f
    | none => f
  let f := match params with
    | some ps => if ps ≠ [] then furlAdd f ps else f
    | none => f
  serializeUrl f

/-- `OlxParser.is_url(url)`: returns `furl(url=url).host` (the function
is annotated `-> bool` but returns the host itself; only its truthiness
is ever used). -/
def is_url (url : String) : Option String := (parseUrl url).host

/-- Python truthiness of `furl(...).host`: `None` and `""` are falsy. -/
def truthyHost : Option String → Bool
  | none => false
  | some h => h ≠ ""

/-- Truthiness of `is_url url` as used in `if not self.is_url(...)`. -/
def is_urlB (url : String) : Bool := truthyHost (is_url url)

/-- `is_url` applied to an attribute lookup that may have returned
`None`: `furl(url=None)` parses as the empty URL, whose host is `None`
(falsy). -/
def is_urlOptB : Option String → Bool
  | none => false
  | some s => is_urlB s

/-! ## Python `float(...)` on the normalized price string -/

/-- Python exceptions this program can raise and does not catch. -/
inductive PyError where
  | valueError
  | indexError
deriving DecidableEq, Repr

/-- The rational value of a parsed float literal: sign, integer digits,
fraction digits and decimal exponent.  Assembled through a single
`mkRat` so that concrete values reduce inside the kernel. -/
def pyFloatVal (neg : Bool) (ip fp : List Char) (e : Int) : ℚ :=
  let m : Int := Int.ofNat (digitsVal (ip ++ fp))
  let m : Int := if neg then -m else m
  let eAdj : Int := e - Int.ofNat fp.length
  if 0 ≤ eAdj then mkRat (m * (10 : Int) ^ eAdj.toNat) 1
  else mkRat m (10 ^ (-eAdj).toNat)

/-- Split an optional exponent part `e|E [sign] digits` from the residue
of a float literal.  Returns `none` when the input does not continue with
a well-formed exponent (including a bare `e`), `some (exponent, rest)`
otherwise; an absent exponent is `some (0, rest)`. -/
def pyFloatExp (l : List Char) : Option (Int × List Char)  :=
  match l with
  | 'e' :: t | 'E' :: t =>
    let (eneg, t') := match t with
      | '-' :: u => (true, u)
      | '+' :: u => (false, u)
      | _ => (false, t)
    let ed := t'.takeWhile Char.isDigit
    let rest := t'.dropWhile Char.isDigit
    if ed = [] then none
    else some ((if eneg then -(Int.ofNat (digitsVal ed)) else Int.ofNat (digitsVal ed)), rest)
  | _ => some (0, l)

/-- Python `float(s)` for plain decimal literals: optional surrounding
whitespace, optional sign, digits with an optional fraction part and an
optional decimal exponent.  Returns `none` where Python raises
`ValueError`.  (The `inf`/`nan` words and digit-group underscores that
Python additionally accepts are not modelled; no input in this program's
scope uses them.) -/
def pyFloat (s : String) : Option ℚ :=
  let l := (s.data.dropWhile Char.isWhitespace).reverse.dropWhile Char.isWhitespace |>.reverse
  let (neg, l) : Bool × List Char := match l with
    | '-' :: t => (true, t)
    | '+' :: t => (false, t)
    | _ => (false, l)
  let ip := l.takeWhile Char.isDigit
  let l := l.dropWhile Char.isDigit
  let (fp, l) : List Char × List Char := match l with
    | '.' :: t => (t.takeWhile Char.isDigit, t.dropWhile Char.isDigit)
    | _ => ([], l)
  if ip = [] ∧ fp = [] then none
  else
    match pyFloatExp l with
    | none => none
    | some (e, rest) =>
      if rest = [] then some (pyFloatVal neg ip fp e) else none

/-! ## Card extraction (`prepare_card_data`) -/

/-- The `<p class="css-10b0gli er34gjf0">` price node: the program reads
its text, and also compares the node itself against a string. -/
structure PriceTag where
  text : String
deriving DecidableEq, Repr

/-- The `<div class="css-u2ayx9">` name/price container: what the
program reads from it is an optional heading text and an optional price
node. -/
structure NamePriceDiv where
  nameText : Option String
  priceTag : Option PriceTag
deriving DecidableEq, Repr

/-- One card node (`<div class="css-1sw7q4x">`), reduced to the queries
`prepare_card_data` performs on it:
* `id` — `card.get("id")`;
* `anchor` — `card.find("a")`: `none` when absent, otherwise the
  anchor's `href` attribute (itself optional);
* `img` — `card.find("img")`: `none` when absent, otherwise the image's
  `src` attribute (itself optional);
* `namePriceDiv` — `card.find("div", class_="css-u2ayx9")`;
* `stateText` — `card.find("span", class_="css-3lkihg")`'s text when
  that node is present.

A found bs4 `Tag` is always truthy (`Tag.__bool__` is `True`), so each
`if node:` test in the source tests exactly the `Option` here. -/
structure Card where
  id : Option String
  anchor : Option (Option String)
  img : Option (Option String)
  namePriceDiv : Option NamePriceDiv
  stateText : Option String
deriving DecidableEq, Repr

/-- The record `prepare_card_data` assembles: exactly the seven keys
`card_id`, `card_url`, `img_url`, `name`, `price`, `currency_unit`,
`state`, in that order. -/
structure Record where
  card_id : Option String
  card_url : Option String
  img_url : Option String
  name : Option String
  price : Option ℚ
  currency_unit : String
  state : Option String
deriving DecidableEq, Repr

/-- The comparison `price == "Zadarmo"` from the source, where `price`
is the bs4 `Tag` returned by `find` (its text has not been read at that
point).  bs4's `Tag.__eq__` demands that the other operand have `name`,
`attrs` and `contents` attributes before comparing contents; a Python
`str` has none of them, so a `Tag` never equals a `str` and the
comparison is `False` for every tag and every string. -/
def tagEqPyStr (_t : PriceTag) (_s : String) : Bool := false

/-- The price-string normalization from the source, applied to
`price.get_text()`:
`text.replace(" ", "").replace(",", ".").split("zł")[0]` —
drop every space, turn each comma into a dot, keep what precedes the
first occurrence of `"zł"` (`split` never returns an empty list, so the
`[0]` never fails). -/
def normPrice (t : String) : String :=
  String.mk (takeBefore2 'z' 'ł' (replaceAllChar ',' '.' (removeAll ' ' t.data)))

/-- The `card_url` computation: `card.find("a")`, then when the anchor
exists its `href`; a relative (or missing — `furl(None).host` is falsy)
link is rewritten through `get_url(BASE_URL, path=href)`. -/
def resolveAnchor : Option (Option String) → Option String
  | none => none
  | some (some h) =>
    some (if is_urlB h then h else get_url BASE_URL (some h) none)
  | some none => some (get_url BASE_URL none none)

/-- The price computation of `prepare_card_data` (source lines 136-141),
for a present price node: the dead `price == "Zadarmo"` comparison (a
bs4 `Tag` never equals a `str`), otherwise
`float(text.replace(" ", "").replace(",", ".").split("zł")[0])`, whose
failure is an uncaught `ValueError`. -/
def priceResult (npd : NamePriceDiv) : Except PyError (Option ℚ) :=
  match npd.priceTag with
  | none => Except.ok none
  | some pt =>
    if tagEqPyStr pt "Zadarmo" then Except.ok (some 0)
    else
      match pyFloat (normPrice pt.text) with
      | some q => Except.ok (some q)
      | none => Except.error PyError.valueError

/-- The tail of `prepare_card_data` from the name/price container on:
locate the container (absent → `return None`), read the optional
heading text, parse the optional price (where `float` may raise
`ValueError`), read the optional state text, and assemble the record
with the literal `"zł"` currency. -/
def finishCard (card : Card) (card_id card_url img_url : Option String) :
    Except PyError (Option Record) :=
  match card.namePriceDiv with
  | none => Except.ok none
  | some npd =>
    match priceResult npd with
    | Except.error e => Except.error e
    | Except.ok price =>
      Except.ok (some
        { card_id := card_id
          card_url := card_url
          img_url := img_url
          name := npd.nameText
          price := price
          currency_unit := "zł"
          state := card.stateText })

/-- `OlxParser.prepare_card_data(card)`: `Except.ok none` models the
`return None` card skip, `Except.error` an uncaught exception. -/
def prepare_card_data (card : Card) : Except PyError (Option Record) :=
  let card_id := card.id
  let card_url := resolveAnchor card.anchor
  match card.img with
  | none => finishCard card card_id card_url none
  | some src =>
    if is_urlOptB src then finishCard card card_id card_url src
    else Except.ok none

/-- Python truthiness of an optional string field. -/
def truthyOptStr : Option String → Bool
  | none => false
  | some s => s ≠ ""

/-- Python truthiness of the optional price (`0`/`0.0` are falsy). -/
def truthyOptPrice : Option ℚ → Bool
  | none => false
  | some q => q ≠ 0

/-- `OlxParser.check_data(data)`: `if not all(data.values()):` warn.
Returns `true` exactly when the warning `"Not all data received"` is
logged; it reads the record and has no other effect. -/
def check_data (r : Record) : Bool :=
  !(truthyOptStr r.card_id && truthyOptStr r.card_url &&
    truthyOptStr r.img_url && truthyOptStr r.name &&
    truthyOptPrice r.price && (r.currency_unit ≠ "" : Bool) &&
    truthyOptStr r.state)

/-! ## The collection loop (`get_cards`) and the sink (`write_results`)

The two external collaborators are abstracted exactly as the spec draws
the boundary: fetching page `n` yields an HTTP status code and — through
`BeautifulSoup(...).findAll("div", class_="css-1sw7q4x")` — the list of
card nodes of the response body, in document order. -/

/-- What fetching and parsing one page yields. -/
structure Page where
  status : Nat
  cards : List Card

/-- A site: the page contents indexed by the 1-based page number. -/
def Site := Nat → Page

/-- How a run ends.
* `aborted collected` — a `return None` out of `get_cards` (fetch
  failure or a page without cards); no artifact is written.
* `raised e collected` — an uncaught Python exception terminated the
  run; no artifact is written.
* `wrote artifact` — `write_results` wrote the collected records as the
  rows of a new CSV artifact.
* `outOfFuel collected` — the modelling bound on loop iterations was
  exhausted (the source loop has no page cap). -/
inductive Outcome where
  | aborted (collected : List Record)
  | raised (e : PyError) (collected : List Record)
  | wrote (artifact : List Record)
  | outOfFuel (collected : List Record)
deriving DecidableEq, Repr

/-- The result list at the end of the run, whatever the outcome. -/
def Outcome.collected : Outcome → List Record
  | .aborted l => l
  | .raised _ l => l
  | .wrote l => l
  | .outOfFuel l => l

/-- The rows of the output artifact: present only when the sink ran to
completion. -/
def Outcome.artifact : Outcome → Option (List Record)
  | .wrote l => some l
  | _ => none

/-- The inner `for card in cards:` loop of `get_cards`: break when the
target is already reached (`len == goods_count`), otherwise extract;
a produced record runs through `check_data` (observational) and is
appended.  Returns the grown list, plus the exception if
`prepare_card_data` raised one. -/
def processCards (goods : Nat) (acc : List Record) :
    List Card → List Record × Option PyError
  | [] => (acc, none)
  | c :: cs =>
    if acc.length = goods then (acc, none)
    else
      match prepare_card_data c with
      | Except.error e => (acc, some e)
      | Except.ok none => processCards goods acc cs
      | Except.ok (some r) =>
        let _warned := check_data r
        processCards goods (acc ++ [r]) cs

/-- `OlxParser.write_results()`: reads `self.card_data[0].keys()` —
an `IndexError` on an empty result set — then writes one row per
record. -/
def write_results (acc : List Record) : Outcome :=
  if acc = [] then Outcome.raised PyError.indexError acc
  else Outcome.wrote acc

/-- The query parameters of the page-`n` request: `params` stays `None`
for page 1 and is `{"page": n}` from page 2 on (the integer is
serialized to its decimal digits by `furl`). -/
def pageParams (n : Nat) : Option (List (String × String)) :=
  if n > 1 then some [("page", String.mk (natStr n))] else none

/-- The URL fetched for page `n`:
`get_url(base_url=OFERTY_URL, params=params)`. -/
def pageUrl (n : Nat) : String := get_url OFERTY_URL none (pageParams n)

/-- The `while len(self.card_data) < self.goods_count:` loop of
`get_cards`, with `page` pages already fetched and `acc` the records
collected so far.  `fuel` bounds the number of further iterations (the
source has no such bound; see `Outcome.outOfFuel`). -/
def get_cardsFuel (goods : Nat) (site : Site) :
    Nat → Nat → List Record → Outcome
  | fuel, page, acc =>
    if acc.length < goods then
      match fuel with
      | 0 => Outcome.outOfFuel acc
      | fuel' + 1 =>
        if (site (page + 1)).status ≠ 200 then Outcome.aborted acc
        else if (site (page + 1)).cards = [] then Outcome.aborted acc
        else
          match processCards goods acc (site (page + 1)).cards with
          | (acc', some e) => Outcome.raised e acc'
          | (acc', none) => get_cardsFuel goods site fuel' (page + 1) acc'
    else write_results acc

/-- `OlxParser.get_cards()` on a parser constructed with
`goods_count = goods`: page counter `0`, result list empty. -/
def get_cards (goods : Nat) (site : Site) (fuel : Nat) : Outcome :=
  get_cardsFuel goods site fuel 0 []

/-- The records that extraction accepts from a card list, in encounter
order (a crashing card never contributes a record). -/
def okRecords (cs : List Card) : List Record :=
  cs.filterMap fun c =>
    match prepare_card_data c with
    | Except.ok (some r) => some r
    | _ => none

/-- The concatenated card lists of pages `page+1, …, page+k`, in fetch
order. -/
def cardsPages (site : Site) (page k : Nat) : List Card :=
  ((List.range k).map fun i => (site (page + 1 + i)).cards).flatten

/-! ## Concrete fixtures used by the concrete-scenario theorems -/

/-- A fully extractable card, the spec's running example: absolute image
source, name `"Desk"`, price text `"1 200,50 zł"`, with a relative
anchor link; `i` is the card's `id` attribute. -/
def deskCard (i : String) : Card :=
  { id := some i
    anchor := some (some "/d/oferta/desk")
    img := some (some "https://img.cdn/pic.jpg")
    namePriceDiv := some
      { nameText := some "Desk"
        priceTag := some { text := "1 200,50 zł" } }
    stateText := some "Used" }

/-- The record `prepare_card_data` extracts from `deskCard i`. -/
def deskRecord (i : String) : Record :=
  { card_id := some i
    card_url := some "https://www.olx.pl/d/oferta/desk"
    img_url := some "https://img.cdn/pic.jpg"
    name := some "Desk"
    price := some (mkRat 120050 100)
    currency_unit := "zł"
    state := some "Used" }

/-- A card whose optional nodes are all missing but whose name/price
container exists (with no heading and no price node inside). -/
def bareCard : Card :=
  { id := none
    anchor := none
    img := none
    namePriceDiv := some { nameText := none, priceTag := none }
    stateText := none }

/-- The record extracted from `bareCard`: every optional field absent. -/
def bareRecord : Record :=
  { card_id := none
    card_url := none
    img_url := none
    name := none
    price := none
    currency_unit := "zł"
    state := none }

/-- A card whose `<img>` node exists but carries no `src` attribute,
with an intact name/price container. -/
def imgNoSrcCard : Card :=
  { id := some "id9"
    anchor := some (some "https://www.olx.pl/d/x")
    img := some none
    namePriceDiv := some { nameText := some "Thing", priceTag := none }
    stateText := none }

/-- A card whose image source is a relative path. -/
def relImgCard : Card :=
  { id := some "id8"
    anchor := some (some "https://www.olx.pl/d/y")
    img := some (some "/rel/path.jpg")
    namePriceDiv := some { nameText := some "Chair", priceTag := none }
    stateText := none }

/-- A card whose price node's text is exactly the free marker
`"Zadarmo"`. -/
def zadarmoCard : Card :=
  { id := some "idz"
    anchor := some (some "https://www.olx.pl/d/z")
    img := some (some "https://img.cdn/z.jpg")
    namePriceDiv := some
      { nameText := some "Gratis"
        priceTag := some { text := "Zadarmo" } }
    stateText := some "New" }

/-- The abort condition in the claim's own words: the card has an image
whose source is present but not resolvable to an absolute URL, or the
name/price container node is absent. -/
def specAbortCond (c : Card) : Bool :=
  (match c.img with
   | some (some s) => !(is_urlB s)
   | _ => false) ||
  (match c.namePriceDiv with
   | none => true
   | some _ => false)

/-- A site whose pages 1 and 2 each yield two extractable cards and
whose later pages fail to fetch. -/
def siteTwoPages : Site := fun n =>
  if n = 1 then ⟨200, [deskCard "id1", deskCard "id2"]⟩
  else if n = 2 then ⟨200, [deskCard "id3", deskCard "id4"]⟩
  else ⟨500, []⟩

/-- A site that answers HTTP 500 on every page. -/
def siteDown : Site := fun _ => ⟨500, []⟩


/-! ## Lemmas about the character-list utilities -/

theorem splitAtFirst_of_none {p : Char → Bool} {l : List Char}
    (h : ∀ a ∈ l, p a = false) : splitAtFirst p l = none := by
  induction l with
  | nil => rfl
  | cons c cs ih =>
    have hc := h c (by simp)
    simp only [splitAtFirst, hc, Bool.false_eq_true, if_false]
    rw [ih fun a ha => h a (by simp [ha])]

theorem splitAtFirst_append {p : Char → Bool} {l r : List Char} {c : Char}
    (h : ∀ a ∈ l, p a = false) (hc : p c = true) :
    splitAtFirst p (l ++ c :: r) = some (l, r) := by
  induction l with
  | nil => simp [splitAtFirst, hc]
  | cons d ds ih =>
    have hd := h d (by simp)
    simp only [List.cons_append, splitAtFirst, hd, Bool.false_eq_true, if_false,
      List.append_eq]
    rw [ih fun a ha => h a (by simp [ha])]

theorem takeUntil_of_none {p : Char → Bool} {l : List Char}
    (h : ∀ a ∈ l, p a = false) : takeUntil p l = (l, []) := by
  induction l with
  | nil => rfl
  | cons c cs ih =>
    have hc := h c (by simp)
    simp only [takeUntil, hc, Bool.false_eq_true, if_false]
    rw [ih fun a ha => h a (by simp [ha])]

theorem takeUntil_append {p : Char → Bool} {l r : List Char} {c : Char}
    (h : ∀ a ∈ l, p a = false) (hc : p c = true) :
    takeUntil p (l ++ c :: r) = (l, c :: r) := by
  induction l with
  | nil => simp [takeUntil, hc]
  | cons d ds ih =>
    have hd := h d (by simp)
    simp only [List.cons_append, takeUntil, hd, Bool.false_eq_true, if_false,
      List.append_eq]
    rw [ih fun a ha => h a (by simp [ha])]

theorem splitOnCharL_ne_nil (sep : Char) (l : List Char) :
    splitOnCharL sep l ≠ [] := by
  induction l with
  | nil => simp [splitOnCharL]
  | cons c cs ih =>
    simp only [splitOnCharL]
    match hsp : splitOnCharL sep cs with
    | [] => simp
    | a :: t =>
      by_cases hc : c = sep <;> simp [hc]

theorem splitOnCharL_of_not_mem {sep : Char} {l : List Char}
    (h : sep ∉ l) : splitOnCharL sep l = [l] := by
  induction l with
  | nil => rfl
  | cons c cs ih =>
    have hc : ¬c = sep := fun hh => h (hh ▸ List.mem_cons_self c cs)
    simp only [splitOnCharL]
    rw [ih fun hm => h (List.mem_cons_of_mem c hm)]
    simp [hc]

theorem splitOnCharL_append {sep : Char} {l r : List Char}
    (h : sep ∉ l) : splitOnCharL sep (l ++ sep :: r) = l :: splitOnCharL sep r := by
  induction l with
  | nil =>
    simp only [List.nil_append, splitOnCharL]
    match hsp : splitOnCharL sep r with
    | [] => exact absurd hsp (splitOnCharL_ne_nil sep r)
    | a :: t => simp
  | cons c cs ih =>
    have hc : ¬c = sep := fun hh => h (hh ▸ List.mem_cons_self c cs)
    simp only [List.cons_append, splitOnCharL, List.append_eq]
    rw [ih fun hm => h (List.mem_cons_of_mem c hm)]
    simp [hc]

/-! ## `str(n)` produces decimal digits -/

theorem digitChar_isDigit {n : Nat} (h : n < 10) :
    (Nat.digitChar n).isDigit = true := by
  interval_cases n <;> decide

theorem natStrAux_digits : ∀ fuel n : Nat, ∀ c ∈ natStrAux fuel n, c.isDigit = true := by
  intro fuel
  induction fuel with
  | zero => intro n c hc; simp [natStrAux] at hc
  | succ fuel ih =>
    intro n c hc
    rw [natStrAux] at hc
    by_cases h : n < 10
    · rw [if_pos h] at hc
      simp only [List.mem_singleton] at hc
      exact hc ▸ digitChar_isDigit h
    · rw [if_neg h] at hc
      rcases List.mem_append.mp hc with hc | hc
      · exact ih (n / 10) c hc
      · simp only [List.mem_singleton] at hc
        exact hc ▸ digitChar_isDigit (Nat.mod_lt n (by norm_num))

theorem natStr_digits (n : Nat) : ∀ c ∈ natStr n, c.isDigit = true :=
  natStrAux_digits (n + 1) n

/-- A decimal digit is none of the URL delimiter characters. -/
theorem isDigit_not_delim {c : Char} (h : c.isDigit = true) :
    c ≠ '&' ∧ c ≠ '=' ∧ c ≠ '?' ∧ c ≠ '#' ∧ c ≠ '/' := by
  simp only [Char.isDigit] at h
  refine ⟨?_, ?_, ?_, ?_, ?_⟩ <;> rintro rfl <;> simp at h

/-! ## Round-tripping the URL serialization -/

theorem string_mk_data (s : String) : String.mk s.data = s := rfl

theorem parseQueryTok_append {k v : List Char}
    (hk : '=' ∉ k) :
    parseQueryTok (k ++ '=' :: v) = (String.mk k, String.mk v) := by
  rw [parseQueryTok, splitAtFirst_append (fun a ha => by
    simp only [decide_eq_false_iff_not]
    rintro rfl
    exact hk ha) (by simp)]

/-- Serialized queries parse back to the same pair list, provided keys
contain no `&`/`=` and values no `&`. -/
theorem parseQueryL_serialize (q : List (String × String)) (hne : q ≠ [])
    (hq : ∀ kv ∈ q, ('&' ∉ (kv.1 : String).data ∧ '=' ∉ (kv.1 : String).data) ∧
      '&' ∉ (kv.2 : String).data) :
    parseQueryL (serializeQueryL q) = q := by
  induction q with
  | nil => exact absurd rfl hne
  | cons kv rest ih =>
    match rest with
    | [] =>
      obtain ⟨⟨hk1, hk2⟩, hv⟩ := hq kv (by simp)
      rw [serializeQueryL, parseQueryL,
        splitOnCharL_of_not_mem (by
          simp only [List.mem_append, List.mem_cons, not_or]
          exact ⟨hk1, by simp, hv⟩),
        List.map_singleton, parseQueryTok_append hk2]
    | kv' :: rest' =>
      obtain ⟨⟨hk1, hk2⟩, hv⟩ := hq kv (by simp)
      have hser : serializeQueryL (kv :: kv' :: rest') =
          (kv.1.data ++ '=' :: kv.2.data) ++ '&' :: serializeQueryL (kv' :: rest') := by
        simp [serializeQueryL]
      rw [hser, parseQueryL,
        splitOnCharL_append (by
          simp only [List.mem_append, List.mem_cons, not_or]
          exact ⟨hk1, by simp, hv⟩),
        List.map_cons, parseQueryTok_append hk2]
      have hrec := ih (by simp) fun kw hkw => hq kw (List.mem_cons_of_mem _ hkw)
      rw [parseQueryL] at hrec
      rw [hrec, string_mk_data, string_mk_data]

/-- A valid scheme contains no colon. -/
theorem validScheme_no_colon {l : List Char} (h : validScheme l = true) :
    ∀ a ∈ l, (a = ':' : Bool) = false := by
  match l with
  | [] => simp [validScheme] at h
  | c :: cs =>
    simp only [validScheme, Bool.and_eq_true, List.all_eq_true] at h
    intro a ha
    rcases List.mem_cons.mp ha with rfl | ha
    · simp only [decide_eq_false_iff_not]
      rintro rfl
      simp [Char.isAlpha, Char.isUpper, Char.isLower] at h
    · have hsc := h.2 a ha
      simp only [decide_eq_false_iff_not]
      rintro rfl
      simp [schemeChar, Char.isAlphanum, Char.isAlpha, Char.isDigit,
        Char.isUpper, Char.isLower] at hsc

/-- `normSlash` output is empty or starts with a slash. -/
theorem normSlash_cases (p : List Char) :
    normSlash p = [] ∨ ∃ t, normSlash p = '/' :: t := by
  match p with
  | [] => exact Or.inl rfl
  | c :: cs =>
    by_cases hc : c = '/'
    · subst hc; exact Or.inr ⟨cs, by simp [normSlash]⟩
    · exact Or.inr ⟨c :: cs, by simp [normSlash, hc]⟩

/-- `normSlash` introduces no `?`. -/
theorem normSlash_no_query {p : List Char} (h : '?' ∉ p) : '?' ∉ normSlash p := by
  intro hm
  apply h
  rcases p with _ | ⟨c, cs⟩
  · simp [normSlash] at hm
  · rw [normSlash] at hm
    split at hm
    · exact hm
    · rcases List.mem_cons.mp hm with h1 | h2
      · exact absurd h1 (by decide)
      · exact h2

/-- Parsing after the scheme, when the serialized tail has no query
part: the authority and the (already slash-normalized) path are
recovered. -/
theorem parseAfterScheme_noQuery (sch : Option String) (hd pd : List Char)
    (hhne : hd ≠ []) (hhs : ∀ c ∈ hd, authStop c = false)
    (hpd : pd = [] ∨ ∃ t, pd = '/' :: t) (hpq : '?' ∉ pd) :
    parseAfterScheme sch ('/' :: '/' :: (hd ++ pd)) =
      ⟨sch, some (String.mk hd), String.mk pd, []⟩ := by
  have htu : takeUntil authStop (hd ++ pd) = (hd, pd) := by
    rcases hpd with rfl | ⟨t, rfl⟩
    · simpa using takeUntil_of_none hhs
    · exact takeUntil_append hhs (by simp [authStop])
  have hsp : splitAtFirst (fun c => (c = '?' : Bool)) pd = none :=
    splitAtFirst_of_none fun a ha => by
      simp only [decide_eq_false_iff_not]
      rintro rfl
      exact hpq ha
  simp only [parseAfterScheme, htu, hsp, mkHost, if_neg hhne]

/-- Parsing after the scheme, when the serialized tail carries a query
string. -/
theorem parseAfterScheme_query (sch : Option String) (hd pd qs : List Char)
    (hhne : hd ≠ []) (hhs : ∀ c ∈ hd, authStop c = false)
    (hpd : pd = [] ∨ ∃ t, pd = '/' :: t) (hpq : '?' ∉ pd) :
    parseAfterScheme sch ('/' :: '/' :: (hd ++ (pd ++ '?' :: qs))) =
      ⟨sch, some (String.mk hd), String.mk pd, parseQueryL qs⟩ := by
  have htu : takeUntil authStop (hd ++ (pd ++ '?' :: qs)) = (hd, pd ++ '?' :: qs) := by
    rcases hpd with rfl | ⟨t, rfl⟩
    · simpa using takeUntil_append hhs (by simp [authStop])
    · have hshape : hd ++ ('/' :: t ++ '?' :: qs) = hd ++ '/' :: (t ++ '?' :: qs) := by
        simp
      rw [hshape, takeUntil_append hhs (by simp [authStop])]
      simp
  have hsp : splitAtFirst (fun c => (c = '?' : Bool)) (pd ++ '?' :: qs) =
      some (pd, qs) :=
    splitAtFirst_append (fun a ha => by
      simp only [decide_eq_false_iff_not]
      rintro rfl
      exact hpq ha) (by simp)
  simp only [parseAfterScheme, htu, hsp, mkHost, if_neg hhne]

/-- Parsing a serialized URL whose scheme is valid first strips exactly
that scheme. -/
theorem parseUrlL_scheme (sc : String) (rest : List Char)
    (hvs : validScheme sc.data = true) :
    parseUrlL (sc.data ++ ':' :: rest) = parseAfterScheme (some sc) rest := by
  rw [parseUrlL, splitAtFirst_append (validScheme_no_colon hvs) (by simp)]
  simp only [hvs, if_true, string_mk_data]

/-- The serialization of a `Furl` with scheme and host, rearranged to
expose the scheme split. -/
theorem serializeUrlL_eq (u : Furl) (sc h : String)
    (hsc : u.scheme = some sc) (hh : u.host = some h) :
    serializeUrlL u = sc.data ++ ':' :: ('/' :: '/' :: (h.data ++
      (normSlash u.path.data ++ serializeQsTail u.query))) := by
  rw [serializeUrlL, hsc, hh]
  simp [List.append_assoc]

/-- The central round-trip: serializing a `Furl` with a valid scheme, a
non-empty authority-safe host, a `?`-free path and `&`/`=`-safe query
pairs, then parsing again, recovers the same components (with the path
in its slash-normalized form). -/
theorem parseUrl_serializeUrl (u : Furl) (sc h : String)
    (hsc : u.scheme = some sc) (hvs : validScheme sc.data = true)
    (hh : u.host = some h) (hhne : h.data ≠ [])
    (hhs : ∀ c ∈ h.data, authStop c = false)
    (hp : '?' ∉ u.path.data)
    (hq : ∀ kv ∈ u.query, ('&' ∉ (kv.1 : String).data ∧ '=' ∉ (kv.1 : String).data) ∧
      '&' ∉ (kv.2 : String).data) :
    parseUrl (serializeUrl u) =
      ⟨some sc, some h, String.mk (normSlash u.path.data), u.query⟩ := by
  have hdata : (serializeUrl u).data = serializeUrlL u := rfl
  rw [parseUrl, hdata, serializeUrlL_eq u sc h hsc hh, parseUrlL_scheme sc _ hvs]
  have hpd := normSlash_cases u.path.data
  have hpq := normSlash_no_query hp
  cases hqc : u.query with
  | nil =>
    rw [show serializeQsTail ([] : List (String × String)) = [] from rfl,
      List.append_nil, parseAfterScheme_noQuery _ _ _ hhne hhs hpd hpq,
      string_mk_data]
  | cons kv rest =>
    rw [show serializeQsTail (kv :: rest) = '?' :: serializeQueryL (kv :: rest) from rfl,
      parseAfterScheme_query _ _ _ _ hhne hhs hpd hpq, string_mk_data,
      parseQueryL_serialize _ (by simp) (hqc ▸ hq)]
/-! ## Lemmas about the collection loop -/

theorem collected_write (acc : List Record) : (write_results acc).collected = acc := by
  rw [write_results]
  split <;> rfl

theorem processCards_length {goods : Nat} (cs : List Card) :
    ∀ acc : List Record, acc.length ≤ goods →
    (processCards goods acc cs).1.length ≤ goods := by
  induction cs with
  | nil => intro acc h; simpa [processCards] using h
  | cons c cs ih =>
    intro acc h
    rw [processCards]
    split
    · simpa using h
    · rename_i hne
      cases hpc : prepare_card_data c with
      | error e => simpa [hpc] using h
      | ok o =>
        cases o with
        | none => simpa only [hpc] using ih acc h
        | some r =>
          simp only [hpc]
          exact ih (acc ++ [r]) (by
            have hlt : acc.length < goods := lt_of_le_of_ne h hne
            simpa using hlt)

theorem processCards_mem {goods : Nat} {cs : List Card} :
    ∀ {acc : List Record} {r : Record}, r ∈ (processCards goods acc cs).1 →
    r ∈ acc ∨ ∃ c ∈ cs, prepare_card_data c = Except.ok (some r) := by
  induction cs with
  | nil => intro acc r h; exact Or.inl (by simpa [processCards] using h)
  | cons c cs ih =>
    intro acc r h
    rw [processCards] at h
    split at h
    · exact Or.inl h
    · cases hpc : prepare_card_data c with
      | error e =>
        rw [hpc] at h
        exact Or.inl h
      | ok o =>
        cases o with
        | none =>
          rw [hpc] at h
          rcases ih h with h1 | ⟨c', hc', hp⟩
          · exact Or.inl h1
          · exact Or.inr ⟨c', List.mem_cons_of_mem c hc', hp⟩
        | some r' =>
          rw [hpc] at h
          dsimp only at h
          rcases ih h with h1 | ⟨c', hc', hp⟩
          · rcases List.mem_append.mp h1 with h2 | h2
            · exact Or.inl h2
            · exact Or.inr ⟨c, by simp, by rw [hpc, List.mem_singleton.mp h2]⟩
          · exact Or.inr ⟨c', List.mem_cons_of_mem c hc', hp⟩

theorem okRecords_cons_none {c : Card} (cs : List Card)
    (h : ∀ r, prepare_card_data c ≠ Except.ok (some r)) :
    okRecords (c :: cs) = okRecords cs := by
  rw [okRecords, okRecords, List.filterMap_cons]
  cases hpc : prepare_card_data c with
  | error e => rfl
  | ok o =>
    cases o with
    | none => rfl
    | some r => exact absurd hpc (h r)

theorem okRecords_cons_some {c : Card} (cs : List Card) {r : Record}
    (h : prepare_card_data c = Except.ok (some r)) :
    okRecords (c :: cs) = r :: okRecords cs := by
  rw [okRecords, okRecords, List.filterMap_cons, h]

theorem okRecords_append (a b : List Card) :
    okRecords (a ++ b) = okRecords a ++ okRecords b := by
  simp [okRecords, List.filterMap_append]

/-! ## Lemmas about card extraction -/

theorem priceResult_none {npd : NamePriceDiv} (h : npd.priceTag = none) :
    priceResult npd = Except.ok none := by
  rw [priceResult, h]

theorem priceResult_some {npd : NamePriceDiv} {pt : PriceTag} (h : npd.priceTag = some pt) :
    priceResult npd =
      match pyFloat (normPrice pt.text) with
      | some q => Except.ok (some q)
      | none => Except.error PyError.valueError := by
  rw [priceResult, h]
  simp only [tagEqPyStr, Bool.false_eq_true, if_false]

theorem priceResult_cases (npd : NamePriceDiv) :
    (npd.priceTag = none ∧ priceResult npd = Except.ok none) ∨
    (∃ pt q, npd.priceTag = some pt ∧ pyFloat (normPrice pt.text) = some q ∧
      priceResult npd = Except.ok (some q)) ∨
    (∃ pt, npd.priceTag = some pt ∧ pyFloat (normPrice pt.text) = none ∧
      priceResult npd = Except.error PyError.valueError) := by
  cases hpt : npd.priceTag with
  | none => exact Or.inl ⟨rfl, priceResult_none hpt⟩
  | some pt =>
    cases hq : pyFloat (normPrice pt.text) with
    | none =>
      refine Or.inr (Or.inr ⟨pt, rfl, hq, ?_⟩)
      rw [priceResult_some hpt, hq]
    | some q =>
      refine Or.inr (Or.inl ⟨pt, q, rfl, hq, ?_⟩)
      rw [priceResult_some hpt, hq]

theorem finishCard_container_none {c : Card} {a b d : Option String}
    (h : c.namePriceDiv = none) : finishCard c a b d = Except.ok none := by
  rw [finishCard, h]

theorem finishCard_of_price {c : Card} {a b d : Option String} {npd : NamePriceDiv}
    {price : Option ℚ} (hnpd : c.namePriceDiv = some npd)
    (hpr : priceResult npd = Except.ok price) :
    finishCard c a b d = Except.ok (some
      ⟨a, b, d, npd.nameText, price, "zł", c.stateText⟩) := by
  rw [finishCard, hnpd]
  dsimp only
  rw [hpr]

theorem finishCard_of_error {c : Card} {a b d : Option String} {npd : NamePriceDiv}
    {e : PyError} (hnpd : c.namePriceDiv = some npd)
    (hpr : priceResult npd = Except.error e) :
    finishCard c a b d = Except.error e := by
  rw [finishCard, hnpd]
  dsimp only
  rw [hpr]

theorem finishCard_none_iff {c : Card} {a b d : Option String} :
    finishCard c a b d = Except.ok none ↔ c.namePriceDiv = none := by
  constructor
  · intro h
    cases hnpd : c.namePriceDiv with
    | none => rfl
    | some npd =>
      rcases priceResult_cases npd with ⟨_, hpr⟩ | ⟨pt, q, _, _, hpr⟩ | ⟨pt, _, _, hpr⟩
      · rw [finishCard_of_price hnpd hpr] at h
        simp at h
      · rw [finishCard_of_price hnpd hpr] at h
        simp at h
      · rw [finishCard_of_error hnpd hpr] at h
        simp at h
  · exact finishCard_container_none


theorem prepare_img_none {c : Card} (himg : c.img = none) :
    prepare_card_data c = finishCard c c.id (resolveAnchor c.anchor) none := by
  rw [prepare_card_data, himg]

theorem prepare_img_abort {c : Card} {src : Option String}
    (himg : c.img = some src) (hsrc : is_urlOptB src = false) :
    prepare_card_data c = Except.ok none := by
  rw [prepare_card_data, himg]
  dsimp only
  rw [hsrc]
  simp

theorem prepare_img_ok {c : Card} {src : Option String}
    (himg : c.img = some src) (hsrc : is_urlOptB src = true) :
    prepare_card_data c = finishCard c c.id (resolveAnchor c.anchor) src := by
  rw [prepare_card_data, himg]
  dsimp only
  rw [hsrc]
  simp

theorem finishCard_ok_some {c : Card} {a b d : Option String} {r : Record}
    (h : finishCard c a b d = Except.ok (some r)) :
    ∃ npd, c.namePriceDiv = some npd ∧
      r.card_id = a ∧ r.card_url = b ∧ r.img_url = d ∧ r.name = npd.nameText ∧
      r.currency_unit = "zł" ∧ r.state = c.stateText ∧
      ((npd.priceTag = none ∧ r.price = none) ∨
       (∃ pt q, npd.priceTag = some pt ∧ pyFloat (normPrice pt.text) = some q ∧
         r.price = some q)) := by
  cases hnpd : c.namePriceDiv with
  | none =>
    rw [finishCard_container_none hnpd] at h
    simp at h
  | some npd =>
    rcases priceResult_cases npd with ⟨hpt, hpr⟩ | ⟨pt, q, hpt, hq, hpr⟩ | ⟨pt, hpt, hq, hpr⟩
    · rw [finishCard_of_price hnpd hpr] at h
      simp only [Except.ok.injEq, Option.some.injEq] at h
      subst h
      exact ⟨npd, rfl, rfl, rfl, rfl, rfl, rfl, rfl, Or.inl ⟨hpt, rfl⟩⟩
    · rw [finishCard_of_price hnpd hpr] at h
      simp only [Except.ok.injEq, Option.some.injEq] at h
      subst h
      exact ⟨npd, rfl, rfl, rfl, rfl, rfl, rfl, rfl, Or.inr ⟨pt, q, hpt, hq, rfl⟩⟩
    · rw [finishCard_of_error hnpd hpr] at h
      simp at h

theorem finishCard_error_iff {c : Card} {a b d : Option String} {e : PyError} :
    finishCard c a b d = Except.error e ↔
      (e = PyError.valueError ∧ ∃ npd pt, c.namePriceDiv = some npd ∧
        npd.priceTag = some pt ∧ pyFloat (normPrice pt.text) = none) := by
  constructor
  · intro h
    cases hnpd : c.namePriceDiv with
    | none =>
      rw [finishCard_container_none hnpd] at h
      simp at h
    | some npd =>
      rcases priceResult_cases npd with ⟨hpt, hpr⟩ | ⟨pt, q, hpt, hq, hpr⟩ | ⟨pt, hpt, hq, hpr⟩
      · rw [finishCard_of_price hnpd hpr] at h
        simp at h
      · rw [finishCard_of_price hnpd hpr] at h
        simp at h
      · rw [finishCard_of_error hnpd hpr] at h
        cases h
        exact ⟨rfl, npd, pt, rfl, hpt, hq⟩
  · rintro ⟨rfl, npd, pt, hnpd, hpt, hq⟩
    refine finishCard_of_error hnpd ?_
    rw [priceResult_some hpt, hq]

theorem prepare_none_iff (c : Card) :
    prepare_card_data c = Except.ok none ↔
      ((∃ src, c.img = some src ∧ is_urlOptB src = false) ∨ c.namePriceDiv = none) := by
  cases himg : c.img with
  | none =>
    rw [prepare_img_none himg, finishCard_none_iff]
    constructor
    · exact Or.inr
    · rintro (⟨src, hs, _⟩ | hnpd)
      · exact absurd hs (by simp)
      · exact hnpd
  | some src =>
    cases hsrc : is_urlOptB src with
    | false =>
      rw [prepare_img_abort himg hsrc]
      exact ⟨fun _ => Or.inl ⟨src, rfl, hsrc⟩, fun _ => rfl⟩
    | true =>
      rw [prepare_img_ok himg hsrc, finishCard_none_iff]
      constructor
      · exact Or.inr
      · rintro (⟨src', hs, hu⟩ | hnpd)
        · cases hs
          rw [hsrc] at hu
          simp at hu
        · exact hnpd

theorem prepare_ok_fields {c : Card} {r : Record}
    (h : prepare_card_data c = Except.ok (some r)) :
    ∃ npd, c.namePriceDiv = some npd ∧
      r.card_id = c.id ∧ r.card_url = resolveAnchor c.anchor ∧
      r.name = npd.nameText ∧ r.currency_unit = "zł" ∧ r.state = c.stateText ∧
      (c.img = none → r.img_url = none) ∧
      (∀ src, c.img = some src → r.img_url = src) ∧
      ((npd.priceTag = none ∧ r.price = none) ∨
       (∃ pt q, npd.priceTag = some pt ∧ pyFloat (normPrice pt.text) = some q ∧
         r.price = some q)) := by
  cases himg : c.img with
  | none =>
    rw [prepare_img_none himg] at h
    obtain ⟨npd, hnpd, h1, h2, h3, h4, h5, h6, h7⟩ := finishCard_ok_some h
    exact ⟨npd, hnpd, h1, h2, h4, h5, h6, fun _ => h3,
      fun src hs => absurd hs (by simp), h7⟩
  | some src =>
    cases hsrc : is_urlOptB src with
    | false =>
      rw [prepare_img_abort himg hsrc] at h
      simp at h
    | true =>
      rw [prepare_img_ok himg hsrc] at h
      obtain ⟨npd, hnpd, h1, h2, h3, h4, h5, h6, h7⟩ := finishCard_ok_some h
      refine ⟨npd, hnpd, h1, h2, h4, h5, h6, fun hn => absurd hn (by simp),
        fun src' hs => ?_, h7⟩
      cases hs
      exact h3

theorem prepare_error_iff (c : Card) (e : PyError) :
    prepare_card_data c = Except.error e ↔
      (e = PyError.valueError ∧
       (c.img = none ∨ ∃ src, c.img = some src ∧ is_urlOptB src = true) ∧
       ∃ npd pt, c.namePriceDiv = some npd ∧ npd.priceTag = some pt ∧
         pyFloat (normPrice pt.text) = none) := by
  cases himg : c.img with
  | none =>
    rw [prepare_img_none himg, finishCard_error_iff]
    constructor
    · rintro ⟨rfl, hrest⟩
      exact ⟨rfl, Or.inl rfl, hrest⟩
    · rintro ⟨rfl, _, hrest⟩
      exact ⟨rfl, hrest⟩
  | some src =>
    cases hsrc : is_urlOptB src with
    | false =>
      rw [prepare_img_abort himg hsrc]
      constructor
      · intro h
        cases h
      · rintro ⟨rfl, himg2 | ⟨src', hs, hu⟩, _⟩
        · exact absurd himg2 (by simp)
        · cases hs
          rw [hsrc] at hu
          simp at hu
    | true =>
      rw [prepare_img_ok himg hsrc, finishCard_error_iff]
      constructor
      · rintro ⟨rfl, hrest⟩
        exact ⟨rfl, Or.inr ⟨src, rfl, hsrc⟩, hrest⟩
      · rintro ⟨rfl, _, hrest⟩
        exact ⟨rfl, hrest⟩


theorem take_append_take {α : Type} (l m : List α) (n : Nat) :
    (l.take n ++ m).take n = (l ++ m).take n := by
  rw [List.take_append_eq_append_take, List.take_take, Nat.min_self,
    List.take_append_eq_append_take, List.length_take]
  have hmin : n - min n l.length = n - l.length := by omega
  rw [hmin]

theorem processCards_none {goods : Nat} {cs : List Card} :
    ∀ {acc : List Record}, acc.length ≤ goods →
    (processCards goods acc cs).2 = none →
    (processCards goods acc cs).1 = (acc ++ okRecords cs).take goods := by
  induction cs with
  | nil =>
    intro acc hle _h
    simp [processCards, okRecords, List.take_of_length_le hle]
  | cons c cs ih =>
    intro acc hle h
    rw [processCards] at h ⊢
    by_cases he : acc.length = goods
    · rw [if_pos he]
      simp only [List.take_append_eq_append_take, List.take_of_length_le hle, he,
        Nat.sub_self, List.take_zero, List.append_nil]
    · rw [if_neg he] at h ⊢
      cases hpc : prepare_card_data c with
      | error e =>
        rw [hpc] at h
        simp at h
      | ok o =>
        cases o with
        | none =>
          rw [hpc] at h
          dsimp only at h ⊢
          rw [okRecords_cons_none cs (by simp [hpc])]
          exact ih hle h
        | some r =>
          rw [hpc] at h
          dsimp only at h ⊢
          rw [okRecords_cons_some cs hpc,
            show acc ++ r :: okRecords cs = (acc ++ [r]) ++ okRecords cs by simp]
          have hlt : acc.length < goods := lt_of_le_of_ne hle he
          exact ih (by simpa using hlt) h

theorem cardsPages_zero (site : Site) (page : Nat) : cardsPages site page 0 = [] := by
  simp [cardsPages]

theorem cardsPages_succ (site : Site) (page k : Nat) :
    cardsPages site page (k + 1) =
      (site (page + 1)).cards ++ cardsPages site (page + 1) k := by
  rw [cardsPages, cardsPages, List.range_succ_eq_map]
  simp only [List.map_cons, List.flatten_cons, List.map_map]
  have harg : (page + 1 + 0) = page + 1 := by omega
  rw [harg]
  have hfun : ((fun i => (site (page + 1 + i)).cards) ∘ Nat.succ) =
      fun i => (site (page + 1 + 1 + i)).cards := by
    funext i
    simp only [Function.comp]
    have : page + 1 + (i + 1) = page + 1 + 1 + i := by omega
    rw [Nat.succ_eq_add_one, this]
  rw [hfun]

theorem get_cardsFuel_length {goods : Nat} {site : Site} :
    ∀ (fuel page : Nat) (acc : List Record), acc.length ≤ goods →
    ((get_cardsFuel goods site fuel page acc).collected).length ≤ goods := by
  intro fuel
  induction fuel with
  | zero =>
    intro page acc h
    rw [get_cardsFuel]
    split
    · simpa [Outcome.collected] using h
    · simpa [collected_write] using h
  | succ fuel ih =>
    intro page acc h
    rw [get_cardsFuel]
    split
    · split
      · simpa [Outcome.collected] using h
      · split
        · simpa [Outcome.collected] using h
        · cases hpc : processCards goods acc (site (page + 1)).cards with
          | mk acc' err =>
            have hlen := processCards_length (site (page + 1)).cards acc h
            rw [hpc] at hlen
            cases err with
            | none => exact ih (page + 1) acc' hlen
            | some e => simpa [Outcome.collected] using hlen
    · simpa [collected_write] using h

theorem get_cardsFuel_wrote {goods : Nat} {site : Site} :
    ∀ (fuel page : Nat) (acc l : List Record), acc.length ≤ goods →
    get_cardsFuel goods site fuel page acc = Outcome.wrote l →
    l.length = goods ∧ l ≠ [] := by
  intro fuel
  induction fuel with
  | zero =>
    intro page acc l hle h
    rw [get_cardsFuel] at h
    split at h
    · exact absurd h (by simp)
    · rename_i hge
      rw [write_results] at h
      split at h
      · exact absurd h (by simp)
      · rename_i hne
        cases h
        exact ⟨le_antisymm hle (Nat.le_of_not_lt hge), hne⟩
  | succ fuel ih =>
    intro page acc l hle h
    rw [get_cardsFuel] at h
    split at h
    · split at h
      · exact absurd h (by simp)
      · split at h
        · exact absurd h (by simp)
        · cases hpc : processCards goods acc (site (page + 1)).cards with
          | mk acc' err =>
            rw [hpc] at h
            have hlen := processCards_length (site (page + 1)).cards acc hle
            rw [hpc] at hlen
            cases err with
            | none => exact ih (page + 1) acc' l hlen h
            | some e => exact absurd h (by simp)
    · rename_i hge
      rw [write_results] at h
      split at h
      · exact absurd h (by simp)
      · rename_i hne
        cases h
        exact ⟨le_antisymm hle (Nat.le_of_not_lt hge), hne⟩

theorem get_cardsFuel_wrote_take {goods : Nat} {site : Site} :
    ∀ (fuel page : Nat) (acc l : List Record), acc.length ≤ goods →
    get_cardsFuel goods site fuel page acc = Outcome.wrote l →
    ∃ k, l = (acc ++ okRecords (cardsPages site page k)).take goods := by
  intro fuel
  induction fuel with
  | zero =>
    intro page acc l hle h
    rw [get_cardsFuel] at h
    split at h
    · exact absurd h (by simp)
    · rw [write_results] at h
      split at h
      · exact absurd h (by simp)
      · cases h
        exact ⟨0, by simp [cardsPages_zero, okRecords, List.take_of_length_le hle]⟩
  | succ fuel ih =>
    intro page acc l hle h
    rw [get_cardsFuel] at h
    split at h
    · split at h
      · exact absurd h (by simp)
      · split at h
        · exact absurd h (by simp)
        · cases hpc : processCards goods acc (site (page + 1)).cards with
          | mk acc' err =>
            rw [hpc] at h
            cases err with
            | none =>
              have hlen := processCards_length (site (page + 1)).cards acc hle
              rw [hpc] at hlen
              obtain ⟨k, hk⟩ := ih (page + 1) acc' l hlen h
              refine ⟨k + 1, ?_⟩
              have hacc' : acc' = (acc ++ okRecords (site (page + 1)).cards).take goods := by
                have hn := @processCards_none goods (site (page + 1)).cards acc
                  hle (by rw [hpc])
                rw [hpc] at hn
                exact hn
              rw [hk, hacc', take_append_take, cardsPages_succ, okRecords_append]
              simp [List.append_assoc]
            | some e => exact absurd h (by simp)
    · rw [write_results] at h
      split at h
      · exact absurd h (by simp)
      · cases h
        exact ⟨0, by simp [cardsPages_zero, okRecords, List.take_of_length_le hle]⟩

theorem get_cardsFuel_mem {goods : Nat} {site : Site} :
    ∀ (fuel page : Nat) (acc : List Record) (r : Record),
    r ∈ (get_cardsFuel goods site fuel page acc).collected →
    r ∈ acc ∨ ∃ c, prepare_card_data c = Except.ok (some r) := by
  intro fuel
  induction fuel with
  | zero =>
    intro page acc r h
    rw [get_cardsFuel] at h
    split at h
    · exact Or.inl h
    · rw [collected_write] at h
      exact Or.inl h
  | succ fuel ih =>
    intro page acc r h
    rw [get_cardsFuel] at h
    split at h
    · split at h
      · exact Or.inl h
      · split at h
        · exact Or.inl h
        · cases hpc : processCards goods acc (site (page + 1)).cards with
          | mk acc' err =>
            rw [hpc] at h
            have hmem := @processCards_mem goods (site (page + 1)).cards acc r
            rw [hpc] at hmem
            cases err with
            | none =>
              rcases ih (page + 1) acc' r h with h1 | h1
              · rcases hmem h1 with h2 | ⟨c, _, hp⟩
                · exact Or.inl h2
                · exact Or.inr ⟨c, hp⟩
              · exact Or.inr h1
            | some e =>
              rcases hmem h with h2 | ⟨c, _, hp⟩
              · exact Or.inl h2
              · exact Or.inr ⟨c, hp⟩
    · rw [collected_write] at h
      exact Or.inl h

theorem step_aborts {goods : Nat} {site : Site} {fuel page : Nat} {acc : List Record}
    (hlt : acc.length < goods)
    (hbad : (site (page + 1)).status ≠ 200 ∨ (site (page + 1)).cards = []) :
    get_cardsFuel goods site (fuel + 1) page acc = Outcome.aborted acc := by
  rw [get_cardsFuel.eq_def]
  dsimp only
  rw [if_pos hlt]
  rcases hbad with hs | hc
  · rw [if_pos hs]
  · by_cases hst : (site (page + 1)).status ≠ 200
    · rw [if_pos hst]
    · rw [if_neg hst, if_pos hc]

theorem get_cards_zero (site : Site) (fuel : Nat) :
    get_cards 0 site fuel = Outcome.raised PyError.indexError [] := by
  rw [get_cards, get_cardsFuel.eq_def]
  dsimp only
  simp [write_results]

/-! ## URL-building characterizations -/

theorem parseAfterScheme_host (sch : Option String) (r : List Char) :
    (parseAfterScheme sch ('/' :: '/' :: r)).host = mkHost (takeUntil authStop r).1 := by
  rw [parseAfterScheme]
  split <;> rfl

theorem is_urlB_base_path (p : String) :
    is_urlB (serializeUrl ⟨some "https", some "www.olx.pl", p, []⟩) = true := by
  have hser : serializeUrlL ⟨some "https", some "www.olx.pl", p, []⟩ =
      "https".data ++ ':' :: ('/' :: '/' :: ("www.olx.pl".data ++ normSlash p.data)) := by
    rw [serializeUrlL]
    simp [serializeQsTail, List.append_assoc]
  rw [is_urlB, is_url, parseUrl,
    show (serializeUrl ⟨some "https", some "www.olx.pl", p, []⟩).data =
      serializeUrlL ⟨some "https", some "www.olx.pl", p, []⟩ from rfl,
    hser, parseUrlL_scheme _ _ (by decide), parseAfterScheme_host]
  have htk : (takeUntil authStop ("www.olx.pl".data ++ normSlash p.data)).1 =
      "www.olx.pl".data := by
    rcases normSlash_cases p.data with hns | ⟨t, hns⟩
    · rw [hns, List.append_nil, takeUntil_of_none (by decide)]
    · rw [hns, takeUntil_append (by decide) (by decide)]
  rw [htk]
  rfl

theorem is_urlB_get_url_base (h : String) :
    is_urlB (get_url BASE_URL (some h) none) = true := by
  simp only [get_url]
  by_cases hh : h = ""
  · rw [if_neg (by simp [hh])]
    exact is_urlB_base_path ""
  · rw [if_pos hh]
    exact is_urlB_base_path h


theorem get_url_path_params (base p : String) (ps : List (String × String))
    (sc h : String)
    (hsc : (parseUrl base).scheme = some sc) (hvs : validScheme sc.data = true)
    (hh : (parseUrl base).host = some h) (hhne : h.data ≠ [])
    (hhs : ∀ ch ∈ h.data, authStop ch = false)
    (hpne : p ≠ "") (hpq : '?' ∉ p.data) (hpsne : ps ≠ [])
    (hq : ∀ kv ∈ (parseUrl base).query ++ ps,
      ('&' ∉ (kv.1 : String).data ∧ '=' ∉ (kv.1 : String).data) ∧
      '&' ∉ (kv.2 : String).data) :
    parseUrl (get_url base (some p) (some ps)) =
      ⟨some sc, some h, String.mk (normSlash p.data), (parseUrl base).query ++ ps⟩ := by
  simp only [get_url]
  rw [if_pos hpne, if_pos hpsne]
  have hres := parseUrl_serializeUrl (furlAdd (furlSetPath (parseUrl base) p) ps) sc h
    (by simp [furlAdd, furlSetPath, hsc]) hvs
    (by simp [furlAdd, furlSetPath, hh]) hhne hhs
    (by simpa [furlAdd, furlSetPath] using hpq)
    (by simpa [furlAdd, furlSetPath] using hq)
  simpa [furlAdd, furlSetPath] using hres

theorem pageUrl_ge2 (n : Nat) (hn : 2 ≤ n) :
    parseUrl (pageUrl n) =
      ⟨some "https", some "www.olx.pl", "/oferty/",
       [("search%5Border%5D", "created_at:desc"), ("page", String.mk (natStr n))]⟩ := by
  rw [pageUrl, pageParams, if_pos (by omega)]
  simp only [get_url]
  rw [if_pos (by simp)]
  have hq : ∀ kv ∈ (parseUrl OFERTY_URL).query ++ [("page", String.mk (natStr n))],
      ('&' ∉ (kv.1 : String).data ∧ '=' ∉ (kv.1 : String).data) ∧
      '&' ∉ (kv.2 : String).data := by
    have hqOF : (parseUrl OFERTY_URL).query =
        [("search%5Border%5D", "created_at:desc")] := rfl
    intro kv hkv
    rw [hqOF] at hkv
    rcases List.mem_append.mp hkv with hkv | hkv
    · have hkv' : kv = ("search%5Border%5D", "created_at:desc") := by simpa using hkv
      subst hkv'
      exact ⟨⟨by decide, by decide⟩, by decide⟩
    · have hkv' : kv = ("page", String.mk (natStr n)) := by simpa using hkv
      subst hkv'
      refine ⟨⟨?_, ?_⟩, fun hm => absurd (natStr_digits n '&' hm) (by decide)⟩
      · show '&' ∉ ("page" : String).data
        decide
      · show '=' ∉ ("page" : String).data
        decide
  have hres := parseUrl_serializeUrl (furlAdd (parseUrl OFERTY_URL) [("page", String.mk (natStr n))])
    "https" "www.olx.pl" rfl (by decide) rfl (by decide) (by decide)
    (show '?' ∉ ("/oferty/" : String).data from by decide) hq
  simpa [furlAdd] using hres


/-! ## The claims -/

/-- **C1 counterexample**: a card whose `<img>` node is present but has
no `src` attribute, and whose name/price container is intact, is dropped
by `prepare_card_data` (`Except.ok none`), although neither of the
claim's two abort conditions (`specAbortCond`) holds for it. -/
theorem c1_counterexample :
    prepare_card_data imgNoSrcCard = Except.ok none ∧
    specAbortCond imgNoSrcCard = false :=
  ⟨rfl, rfl⟩

/-- **C1 (amended)**: `prepare_card_data` returns `None` iff the card
has an image node whose `src` attribute is absent or not resolvable to
an absolute URL (`is_urlOptB` false), or the name/price container is
absent; every other missing optional node (identifier, anchor, image
node, heading, price node, state label) yields a record with that field
absent; and an exception arises only from a present price node, never
from a missing optional node. -/
theorem c1_abort_iff (c : Card) :
    (prepare_card_data c = Except.ok none ↔
      ((∃ src, c.img = some src ∧ is_urlOptB src = false) ∨
        c.namePriceDiv = none)) ∧
    (∀ r, prepare_card_data c = Except.ok (some r) →
      (c.id = none → r.card_id = none) ∧
      (c.anchor = none → r.card_url = none) ∧
      (c.img = none → r.img_url = none) ∧
      (∀ npd, c.namePriceDiv = some npd →
        (npd.nameText = none → r.name = none) ∧
        (npd.priceTag = none → r.price = none)) ∧
      (c.stateText = none → r.state = none)) ∧
    (∀ e, prepare_card_data c = Except.error e →
      ∃ npd pt, c.namePriceDiv = some npd ∧ npd.priceTag = some pt) := by
  refine ⟨prepare_none_iff c, ?_, ?_⟩
  · intro r h
    obtain ⟨npd, hnpd, hid, hurl, hname, _hcur, hstate, himgn, _himgs, hprice⟩ :=
      prepare_ok_fields h
    refine ⟨fun hi => by rw [hid, hi], fun ha => by rw [hurl, ha, resolveAnchor],
      himgn, fun npd' hnpd' => ?_, fun hs => by rw [hstate, hs]⟩
    rw [hnpd] at hnpd'
    cases hnpd'
    refine ⟨fun hn => by rw [hname, hn], fun hpt => ?_⟩
    rcases hprice with ⟨_, hp⟩ | ⟨pt, q, hpt', _, _⟩
    · exact hp
    · rw [hpt] at hpt'
      cases hpt'
  · intro e h
    obtain ⟨_, _, npd, pt, hnpd, hpt, _⟩ := (prepare_error_iff c e).mp h
    exact ⟨npd, pt, hnpd, hpt⟩

/-- **C1 witness**: on `bareCard` (all optional nodes missing, container
present but empty) extraction succeeds and every optional field of the
resulting record is absent. -/
theorem c1_witness :
    bareRecord.card_id = none ∧ bareRecord.card_url = none ∧
    bareRecord.img_url = none ∧ bareRecord.name = none ∧
    bareRecord.price = none ∧ bareRecord.state = none := by
  have h := (c1_abort_iff bareCard).2.1 bareRecord rfl
  exact ⟨h.1 rfl, h.2.1 rfl, h.2.2.1 rfl, (h.2.2.2.1 _ rfl).1 rfl,
    (h.2.2.2.1 _ rfl).2 rfl, h.2.2.2.2 rfl⟩

/-- **C2**: the collected list never grows beyond `goods_count` — the
inner loop's `len == goods_count` break keeps `processCards` bounded,
and from any loop state within the bound every outcome stays within the
bound; concretely, with target 3 and pages of 2 + 2 usable cards the
run writes exactly the records of page-1's two cards and page-2's first
card, and page-2's second record is not in the output (pages ≥ 3 are
never relevant: here they would even fail to fetch). -/
theorem c2_result_bounded :
    (∀ (goods : Nat) (acc : List Record) (cs : List Card),
      acc.length ≤ goods → (processCards goods acc cs).1.length ≤ goods) ∧
    (∀ (goods : Nat) (site : Site) (fuel page : Nat) (acc : List Record),
      acc.length ≤ goods →
      ((get_cardsFuel goods site fuel page acc).collected).length ≤ goods) ∧
    (∀ (goods : Nat) (site : Site) (fuel : Nat),
      ((get_cards goods site fuel).collected).length ≤ goods) ∧
    get_cards 3 siteTwoPages 2 =
      Outcome.wrote [deskRecord "id1", deskRecord "id2", deskRecord "id3"] ∧
    deskRecord "id4" ∉ [deskRecord "id1", deskRecord "id2", deskRecord "id3"] := by
  refine ⟨fun goods acc cs h => processCards_length cs acc h,
    fun goods site fuel page acc h => get_cardsFuel_length fuel page acc h,
    fun goods site fuel => get_cardsFuel_length fuel 0 [] (by simp),
    by decide, by decide⟩

/-- **C2 witness**: the invariant applied to a concrete mid-loop state
(two records already collected, target 3). -/
theorem c2_result_bounded_witness :
    ((get_cardsFuel 3 siteTwoPages 1 1 [deskRecord "id1", deskRecord "id2"]).collected).length ≤ 3 :=
  c2_result_bounded.2.1 3 siteTwoPages 1 1 [deskRecord "id1", deskRecord "id2"] (by decide)

/-- **C3** (code bug): the source's free-marker test `price == "Zadarmo"`
compares the price *node* (a bs4 `Tag`) with a `str`, which is never
true, so a card whose price text is exactly the free marker is not given
price 0 — instead the text reaches `float("Zadarmo")`, which raises an
uncaught `ValueError`. -/
theorem c3_free_marker_dead :
    tagEqPyStr { text := "Zadarmo" } "Zadarmo" = false ∧
    zadarmoCard.namePriceDiv = some
      { nameText := some "Gratis", priceTag := some { text := "Zadarmo" } } ∧
    prepare_card_data zadarmoCard = Except.error PyError.valueError :=
  ⟨rfl, rfl, rfl⟩


/-- **C4**: when the price node is present and extraction succeeds, the
record's price is exactly `float` applied to the normalized text —
spaces stripped, comma turned into a dot, the part before the currency
suffix `"zł"` (`normPrice`); concretely `"1 200,50 zł"` normalizes to
`"1200.50"` and parses to `1200.50`; and an absent price node yields an
absent price field, not zero. -/
theorem c4_price_parsing :
    (∀ (c : Card) (npd : NamePriceDiv) (pt : PriceTag) (r : Record),
      c.namePriceDiv = some npd → npd.priceTag = some pt →
      prepare_card_data c = Except.ok (some r) →
      ∃ q, pyFloat (normPrice pt.text) = some q ∧ r.price = some q) ∧
    (∀ (c : Card) (npd : NamePriceDiv) (r : Record),
      c.namePriceDiv = some npd → npd.priceTag = none →
      prepare_card_data c = Except.ok (some r) → r.price = none) ∧
    normPrice "1 200,50 zł" = "1200.50" ∧
    pyFloat "1200.50" = some (mkRat 120050 100) ∧
    (mkRat 120050 100 : ℚ) = 1200.50 ∧
    prepare_card_data (deskCard "id1") = Except.ok (some (deskRecord "id1")) ∧
    (deskRecord "id1").price = some (mkRat 120050 100) := by
  refine ⟨?_, ?_, rfl, rfl, by norm_num [Rat.mkRat_eq_div], rfl, rfl⟩
  · intro c npd pt r hnpd hpt h
    obtain ⟨npd', hnpd', _, _, _, _, _, _, _, hprice⟩ := prepare_ok_fields h
    rw [hnpd] at hnpd'
    cases hnpd'
    rcases hprice with ⟨hpt', _⟩ | ⟨pt', q, hpt', hq, hr⟩
    · rw [hpt] at hpt'
      cases hpt'
    · rw [hpt] at hpt'
      cases hpt'
      exact ⟨q, hq, hr⟩
  · intro c npd r hnpd hpt h
    obtain ⟨npd', hnpd', _, _, _, _, _, _, _, hprice⟩ := prepare_ok_fields h
    rw [hnpd] at hnpd'
    cases hnpd'
    rcases hprice with ⟨_, hr⟩ | ⟨pt', q, hpt', _, _⟩
    · exact hr
    · rw [hpt] at hpt'
      cases hpt'

/-- **C4 witness**: the general price law applied to the concrete card
with price text `"1 200,50 zł"`. -/
theorem c4_price_parsing_witness :
    ∃ q, pyFloat (normPrice "1 200,50 zł") = some q ∧
      (deskRecord "id6").price = some q :=
  c4_price_parsing.1 (deskCard "id6")
    { nameText := some "Desk", priceTag := some { text := "1 200,50 zł" } }
    { text := "1 200,50 zł" } (deskRecord "id6") rfl rfl rfl

/-- **C5**: `is_url` is truthy exactly when the string parses to a URL
with a non-empty host; the relative/absolute policy is asymmetric: a
relative anchor link is rewritten through `get_url(BASE_URL, path=...)`
to a URL that is again absolute (non-empty host `www.olx.pl`) and
extraction continues, while a present-but-relative image source makes
`prepare_card_data` drop the whole card. -/
theorem c5_link_policy :
    (∀ u : String, is_urlB u = true ↔
      ∃ h, (parseUrl u).host = some h ∧ h ≠ "") ∧
    (∀ (c : Card) (h : String) (r : Record),
      c.anchor = some (some h) → is_urlB h = false →
      prepare_card_data c = Except.ok (some r) →
      r.card_url = some (get_url BASE_URL (some h) none)) ∧
    (∀ h : String, is_urlB (get_url BASE_URL (some h) none) = true) ∧
    (∀ (c : Card) (s : String), c.img = some (some s) → is_urlB s = false →
      prepare_card_data c = Except.ok none) := by
  refine ⟨?_, ?_, is_urlB_get_url_base, ?_⟩
  · intro u
    rw [is_urlB, is_url]
    cases hh : (parseUrl u).host with
    | none => simp [truthyHost]
    | some h => simp [truthyHost]
  · intro c h r ha hrel hok
    obtain ⟨npd, _, _, hurl, _, _, _, _, _, _⟩ := prepare_ok_fields hok
    rw [hurl, ha, resolveAnchor, hrel]
    simp
  · intro c s himg hrel
    exact prepare_img_abort himg (by simp [is_urlOptB, hrel])

/-- **C5 witness**: the classifier on an absolute and a relative string,
and the policy on concrete cards — `deskCard`'s relative anchor is
rewritten to `https://www.olx.pl/d/oferta/desk` (an absolute URL), while
`relImgCard`'s relative image source drops the card. -/
theorem c5_link_policy_witness :
    is_urlB "https://x.com/y" = true ∧
    is_urlB "/y/z" = false ∧
    (deskRecord "id5").card_url = some (get_url BASE_URL (some "/d/oferta/desk") none) ∧
    is_urlB (get_url BASE_URL (some "/d/oferta/desk") none) = true ∧
    prepare_card_data relImgCard = Except.ok none :=
  ⟨by decide, by decide,
    c5_link_policy.2.1 (deskCard "id5") "/d/oferta/desk" (deskRecord "id5")
      rfl (by decide) rfl,
    c5_link_policy.2.2.1 "/d/oferta/desk",
    c5_link_policy.2.2.2 relImgCard "/rel/path.jpg" rfl (by decide)⟩

/-- **C6**: a non-OK fetch or a page with zero card nodes makes the loop
return immediately with the records collected so far and no output
artifact; the sink writes an artifact only when the loop left the
collecting state with the target met (the artifact has exactly
`goods_count` rows and is non-empty); concretely an HTTP 500 on page 1
yields zero records and no artifact. -/
theorem c6_abort_before_sink :
    (∀ (goods : Nat) (site : Site) (fuel page : Nat) (acc : List Record),
      acc.length < goods →
      ((site (page + 1)).status ≠ 200 ∨ (site (page + 1)).cards = []) →
      get_cardsFuel goods site (fuel + 1) page acc = Outcome.aborted acc ∧
      (get_cardsFuel goods site (fuel + 1) page acc).artifact = none) ∧
    (∀ (goods : Nat) (site : Site) (fuel : Nat) (l : List Record),
      get_cards goods site fuel = Outcome.wrote l →
      l.length = goods ∧ l ≠ []) ∧
    get_cards 3 siteDown 5 = Outcome.aborted [] ∧
    (get_cards 3 siteDown 5).artifact = none := by
  refine ⟨?_, ?_, by decide, by decide⟩
  · intro goods site fuel page acc hlt hbad
    rw [step_aborts hlt hbad]
    exact ⟨rfl, rfl⟩
  · intro goods site fuel l h
    exact get_cardsFuel_wrote fuel 0 [] l (by simp) h

/-- **C6 witness**: the abort law applied to a concrete mid-run state on
the failing site, and the sink law applied to the successful concrete
run. -/
theorem c6_abort_before_sink_witness :
    (get_cardsFuel 3 siteDown (4 + 1) 0 [] = Outcome.aborted [] ∧
      (get_cardsFuel 3 siteDown (4 + 1) 0 []).artifact = none) ∧
    ([deskRecord "id1", deskRecord "id2", deskRecord "id3"].length = 3 ∧
      [deskRecord "id1", deskRecord "id2", deskRecord "id3"] ≠ []) :=
  ⟨c6_abort_before_sink.1 3 siteDown 4 0 [] (by decide) (Or.inl (by decide)),
   c6_abort_before_sink.2.1 3 siteTwoPages 2
     [deskRecord "id1", deskRecord "id2", deskRecord "id3"] (by decide)⟩


/-- **C7 counterexample**: a run with target 0 reaches the write step
with an empty result set, and the sink raises an uncaught `IndexError`
(`card_data[0]` on an empty list) instead of logging and returning
early; no artifact is produced either way, but the termination is an
exception, refuting the claim that no fatal condition raises. -/
theorem c7_counterexample :
    get_cards 0 siteTwoPages 5 = Outcome.raised PyError.indexError [] ∧
    (get_cards 0 siteTwoPages 5).artifact = none :=
  ⟨rfl, rfl⟩

/-- **C7 (amended)**: fetch failures and card-less pages are indeed
handled by logging and an early return (the `Aborted` outcome), but two
fatal conditions escape as uncaught exceptions: a malformed price string
during extraction raises `ValueError`, and a run whose target is 0
reaches the sink with an empty result set and raises `IndexError`; no
outcome that raises carries an output artifact. -/
theorem c7_exception_policy :
    (∀ (site : Site) (fuel : Nat),
      get_cards 0 site fuel = Outcome.raised PyError.indexError []) ∧
    (∀ (c : Card) (npd : NamePriceDiv) (pt : PriceTag),
      (c.img = none ∨ ∃ src, c.img = some src ∧ is_urlOptB src = true) →
      c.namePriceDiv = some npd → npd.priceTag = some pt →
      pyFloat (normPrice pt.text) = none →
      prepare_card_data c = Except.error PyError.valueError) ∧
    (∀ (e : PyError) (l : List Record), (Outcome.raised e l).artifact = none) ∧
    (∀ (goods : Nat) (site : Site) (fuel page : Nat) (acc : List Record),
      acc.length < goods →
      ((site (page + 1)).status ≠ 200 ∨ (site (page + 1)).cards = []) →
      get_cardsFuel goods site (fuel + 1) page acc = Outcome.aborted acc) := by
  refine ⟨get_cards_zero, ?_, fun e l => rfl, fun _ _ _ _ _ h hb => step_aborts h hb⟩
  intro c npd pt himg hnpd hpt hq
  exact (prepare_error_iff c PyError.valueError).mpr ⟨rfl, himg, npd, pt, hnpd, hpt, hq⟩

/-- **C7 witness**: the amended policy at concrete inputs — the
target-0 run raises `IndexError`, and the `"Zadarmo"` card (whose text
survives normalization unchanged and fails `float`) raises
`ValueError`. -/
theorem c7_exception_policy_witness :
    get_cards 0 siteDown 7 = Outcome.raised PyError.indexError [] ∧
    prepare_card_data zadarmoCard = Except.error PyError.valueError :=
  ⟨c7_exception_policy.1 siteDown 7,
   c7_exception_policy.2.1 zadarmoCard
     { nameText := some "Gratis", priceTag := some { text := "Zadarmo" } }
     { text := "Zadarmo" }
     (Or.inr ⟨some "https://img.cdn/z.jpg", rfl, by decide⟩) rfl rfl rfl⟩

/-- **C8**: page 1 is fetched at `OFERTY_URL` itself — its query is the
pre-existing search parameter only, with no `page` key — while page
`n ≥ 2` is fetched at a URL whose query is the existing query plus
`page=n` (the integer in decimal); and in general `get_url` keeps
scheme, host and existing query of the base, replaces the path when one
is given, and appends the given parameters additively, producing a
string that parses back to exactly those components. -/
theorem c8_page_urls :
    pageUrl 1 = OFERTY_URL ∧
    (parseUrl (pageUrl 1)).query = [("search%5Border%5D", "created_at:desc")] ∧
    (∀ kv ∈ (parseUrl (pageUrl 1)).query, kv.1 ≠ "page") ∧
    (∀ n : Nat, 2 ≤ n →
      parseUrl (pageUrl n) =
        ⟨some "https", some "www.olx.pl", "/oferty/",
          [("search%5Border%5D", "created_at:desc"),
           ("page", String.mk (natStr n))]⟩) ∧
    (∀ (base p : String) (ps : List (String × String)) (sc h : String),
      (parseUrl base).scheme = some sc → validScheme sc.data = true →
      (parseUrl base).host = some h → h.data ≠ [] →
      (∀ ch ∈ h.data, authStop ch = false) →
      p ≠ "" → '?' ∉ p.data → ps ≠ [] →
      (∀ kv ∈ (parseUrl base).query ++ ps,
        ('&' ∉ (kv.1 : String).data ∧ '=' ∉ (kv.1 : String).data) ∧
        '&' ∉ (kv.2 : String).data) →
      parseUrl (get_url base (some p) (some ps)) =
        ⟨some sc, some h, String.mk (normSlash p.data),
          (parseUrl base).query ++ ps⟩) :=
  ⟨rfl, rfl, by decide, pageUrl_ge2, get_url_path_params⟩

/-- **C8 witness**: the general `get_url` law at a concrete base with an
existing query, and the page-URL law at page 2. -/
theorem c8_page_urls_witness :
    parseUrl (get_url "https://example.com/a?x=1" (some "/b") (some [("k", "v")])) =
      ⟨some "https", some "example.com", "/b", [("x", "1"), ("k", "v")]⟩ ∧
    parseUrl (pageUrl 2) =
      ⟨some "https", some "www.olx.pl", "/oferty/",
        [("search%5Border%5D", "created_at:desc"), ("page", "2")]⟩ :=
  ⟨c8_page_urls.2.2.2.2 "https://example.com/a?x=1" "/b" [("k", "v")]
      "https" "example.com" rfl (by decide) rfl (by decide) (by decide)
      (by decide) (by decide) (by decide)
      (by decide),
   c8_page_urls.2.2.2.1 2 (by decide)⟩

/-- **C9**: whenever the run writes an artifact, the written list is
exactly the first `goods_count` successfully extracted records of the
concatenated card streams of the fetched pages, in page order and in
document order within each page — no reordering or sorting anywhere. -/
theorem c9_order_preserved :
    ∀ (goods : Nat) (site : Site) (fuel : Nat) (l : List Record),
      get_cards goods site fuel = Outcome.wrote l →
      ∃ k, l = (okRecords (cardsPages site 0 k)).take goods := by
  intro goods site fuel l h
  obtain ⟨k, hk⟩ := get_cardsFuel_wrote_take fuel 0 [] l (by simp) h
  exact ⟨k, by simpa using hk⟩

/-- **C9 witness**: the concrete two-page run's artifact equals the
truncated concatenation of its pages' extracted records. -/
theorem c9_order_preserved_witness :
    ∃ k, [deskRecord "id1", deskRecord "id2", deskRecord "id3"] =
      (okRecords (cardsPages siteTwoPages 0 k)).take 3 :=
  c9_order_preserved 3 siteTwoPages 2
    [deskRecord "id1", deskRecord "id2", deskRecord "id3"] (by decide)

/-- **C10**: every element of the collected list is a record produced by
`prepare_card_data` (never the skipped `None`), carrying exactly the
seven fields of `Record` with `currency_unit` the literal `"zł"`; and
the completeness check is purely observational: on a produced record the
inner loop appends exactly that record, unmodified, whatever
`check_data` returns. -/
theorem c10_appended_records :
    (∀ (c : Card) (r : Record), prepare_card_data c = Except.ok (some r) →
      r.currency_unit = "zł") ∧
    (∀ (goods : Nat) (site : Site) (fuel : Nat) (r : Record),
      r ∈ (get_cards goods site fuel).collected →
      (∃ c, prepare_card_data c = Except.ok (some r)) ∧ r.currency_unit = "zł") ∧
    (∀ (goods : Nat) (acc : List Record) (c : Card) (cs : List Card) (r : Record),
      acc.length ≠ goods → prepare_card_data c = Except.ok (some r) →
      processCards goods acc (c :: cs) = processCards goods (acc ++ [r]) cs) := by
  have hcur : ∀ (c : Card) (r : Record),
      prepare_card_data c = Except.ok (some r) → r.currency_unit = "zł" := by
    intro c r h
    obtain ⟨_, _, _, _, _, hcur, _, _, _, _⟩ := prepare_ok_fields h
    exact hcur
  refine ⟨hcur, ?_, ?_⟩
  · intro goods site fuel r h
    rcases get_cardsFuel_mem fuel 0 [] r h with h1 | ⟨c, hc⟩
    · simp at h1
    · exact ⟨⟨c, hc⟩, hcur c r hc⟩
  · intro goods acc c cs r hne hpc
    rw [processCards, if_neg hne, hpc]

/-- **C10 witness**: a record of the concrete run is a
`prepare_card_data` product with currency `"zł"`. -/
theorem c10_appended_records_witness :
    (∃ c, prepare_card_data c = Except.ok (some (deskRecord "id1"))) ∧
    (deskRecord "id1").currency_unit = "zł" :=
  c10_appended_records.2.1 3 siteTwoPages 2 (deskRecord "id1") (by decide)


end Olx
